import Mathlib

/-!
Verification of the portfolio ledger and valuation engine of
`tracker.py` (class `StockPortfolioTracker`).

The embedding models Python floats as exact rationals, the `self.portfolio`
dict as an insertion-ordered association list from symbol strings to
positions, and fallible external calls by their observable outcome:
the result of `float(...)` on a numeric argument is an `Option ℚ`
(`none` when `ValueError` is raised), the result of
`datetime.strptime(date, "%Y-%m-%d")` is a `Bool` flag (`false` when
`ValueError` is raised), and the price source `get_current_price` is a
function `String → Option ℚ` (`none` when no price is available).
A float division whose denominator is zero raises `ZeroDivisionError` in
Python; the embedding makes that an explicit fault outcome.
-/

namespace StockTracker

/-- One entry of the `self.portfolio` dict: the value stored under a symbol
key, with the same field names as the source. -/
structure Position where
  shares : ℚ
  purchase_price : ℚ
  purchase_date : String
deriving DecidableEq, Repr

/-- The `self.portfolio` dict: an insertion-ordered association list from
symbol to position, mirroring a Python dict. -/
abbrev Portfolio := List (String × Position)

/-- Python `symbol.upper()` on the ASCII ticker strings the tracker
handles: uppercase each character. -/
def pyUpper (s : String) : String := ⟨s.data.map Char.toUpper⟩

/-- Dict lookup `portfolio[symbol]` / membership `symbol in portfolio`:
first entry with the given key, if any. -/
def find? : Portfolio → String → Option Position
  | [], _ => none
  | (k, v) :: rest, s => if k = s then some v else find? rest s

/-- Dict assignment `portfolio[symbol] = value`: replace the entry with the
given key in place, or append a fresh entry at the end (Python dicts keep
insertion order). -/
def setPos : Portfolio → String → Position → Portfolio
  | [], s, v => [(s, v)]
  | (k, w) :: rest, s, v =>
    if k = s then (s, v) :: rest else (k, w) :: setPos rest s v

/-- Dict deletion `del portfolio[symbol]`: drop the entries with the given
key. -/
def erase : Portfolio → String → Portfolio
  | [], _ => []
  | (k, w) :: rest, s => if k = s then erase rest s else (k, w) :: erase rest s

/-- Observable outcome of `add_stock`: the message printed (invalid input,
position updated, position added), or the uncaught `ZeroDivisionError`
raised by `total_cost / total_shares` when the merged share count is
zero. -/
inductive AddOutcome where
  | invalidInput
  | updated
  | added
  | mergeFault
deriving DecidableEq, Repr

/-- `StockPortfolioTracker.add_stock(symbol, shares, purchase_price,
purchase_date)`, returning the new portfolio and the observable outcome.
`shares` and `price` are the outcome of `float(...)` on the arguments
(`none` models `ValueError`); `dateOk` is whether
`datetime.strptime(purchase_date, "%Y-%m-%d")` succeeds; `dateStr` is the
raw date string that gets stored. -/
def add_stock (p : Portfolio) (symbol : String) (shares price : Option ℚ)
    (dateOk : Bool) (dateStr : String) : Portfolio × AddOutcome :=
  let sym := pyUpper symbol
  match shares, price, dateOk with
  | some sh, some pr, true =>
    match find? p sym with
    | some pos =>
      let total_shares := pos.shares + sh
      let total_cost := pos.shares * pos.purchase_price + sh * pr
      if total_shares = 0 then (p, .mergeFault)
      else
        (setPos p sym
          { shares := total_shares
            purchase_price := total_cost / total_shares
            purchase_date := pos.purchase_date }, .updated)
    | none =>
      (setPos p sym
        { shares := sh, purchase_price := pr, purchase_date := dateStr },
        .added)
  | _, _, _ => (p, .invalidInput)

/-- Observable outcome of `remove_stock`: the symbol was not in the
portfolio, all shares were removed, or the share count was reduced. -/
inductive RemoveOutcome where
  | notHeld
  | removedAll
  | reduced
deriving DecidableEq, Repr

/-- `StockPortfolioTracker.remove_stock(symbol, shares=None)`, returning
the new portfolio and the observable outcome. -/
def remove_stock (p : Portfolio) (symbol : String) (shares : Option ℚ) :
    Portfolio × RemoveOutcome :=
  let sym := pyUpper symbol
  match find? p sym with
  | none => (p, .notHeld)
  | some pos =>
    match shares with
    | none => (erase p sym, .removedAll)
    | some sh =>
      if pos.shares ≤ sh then (erase p sym, .removedAll)
      else
        (setPos p sym
          { shares := pos.shares - sh
            purchase_price := pos.purchase_price
            purchase_date := pos.purchase_date }, .reduced)

/-- One row appended to `report` in `portfolio_summary`, before string
formatting. -/
structure Row where
  symbol : String
  shares : ℚ
  cost_basis : ℚ
  current_price : ℚ
  investment : ℚ
  current_value : ℚ
  gain_loss : ℚ
  gain_loss_pct : ℚ
deriving DecidableEq, Repr

/-- The data printed by `portfolio_summary` when it completes: the rows and
the four aggregate figures. -/
structure Summary where
  rows : List Row
  total_investment : ℚ
  total_current_value : ℚ
  total_gain_loss : ℚ
  total_gain_loss_pct : ℚ
deriving DecidableEq, Repr

/-- Observable outcome of `portfolio_summary`: the "Portfolio is empty"
early return, the uncaught `ZeroDivisionError` raised by
`gain_loss / investment` when a quoted row has zero investment, or the
completed report. -/
inductive SummaryResult where
  | emptyPortfolio
  | zeroDivisionFault
  | ok (s : Summary)
deriving DecidableEq, Repr

/-- The `for symbol, data in self.portfolio.items()` loop of
`portfolio_summary`: rows whose price lookup fails are skipped, a quoted
row with `investment == 0` raises `ZeroDivisionError` (modelled as `none`),
otherwise the row is built and the two running totals accumulate it. -/
def summaryLoop (api : String → Option ℚ) :
    Portfolio → Option (List Row × ℚ × ℚ)
  | [] => some ([], 0, 0)
  | (symbol, data) :: rest =>
    match api symbol with
    | none => summaryLoop api rest
    | some current_price =>
      let shares := data.shares
      let cost_basis := data.purchase_price
      let investment := shares * cost_basis
      if investment = 0 then none
      else
        let current_value := shares * current_price
        let gain_loss := current_value - investment
        let gain_loss_pct := gain_loss / investment * 100
        match summaryLoop api rest with
        | none => none
        | some (rows, ti, tcv) =>
          some (⟨symbol, shares, cost_basis, current_price, investment,
                  current_value, gain_loss, gain_loss_pct⟩ :: rows,
                investment + ti, current_value + tcv)

/-- `StockPortfolioTracker.portfolio_summary()`, with the price source
`self.api.get_current_price` passed as the oracle `api`. The state
component is the portfolio after the call (the body never assigns
`self.portfolio`). -/
def portfolio_summary (p : Portfolio) (api : String → Option ℚ) :
    Portfolio × SummaryResult :=
  if p = [] then (p, .emptyPortfolio)
  else
    match summaryLoop api p with
    | none => (p, .zeroDivisionFault)
    | some (rows, total_investment, total_current_value) =>
      let total_gain_loss := total_current_value - total_investment
      let total_gain_loss_pct :=
        if total_investment ≠ 0 then total_gain_loss / total_investment * 100
        else 0
      (p, .ok ⟨rows, total_investment, total_current_value, total_gain_loss,
              total_gain_loss_pct⟩)

/-- Spec-side reference sum, following the spec's words: total invested
over exactly the positions whose price lookup succeeded. -/
def specInvestedSum (api : String → Option ℚ) : Portfolio → ℚ
  | [] => 0
  | (symbol, data) :: rest =>
    match api symbol with
    | none => specInvestedSum api rest
    | some _ => data.shares * data.purchase_price + specInvestedSum api rest

/-- Spec-side reference sum, following the spec's words: total current
value over exactly the positions whose price lookup succeeded. -/
def specCurrentValueSum (api : String → Option ℚ) : Portfolio → ℚ
  | [] => 0
  | (symbol, data) :: rest =>
    match api symbol with
    | none => specCurrentValueSum api rest
    | some price => data.shares * price + specCurrentValueSum api rest

/-- A single user command against the ledger, for reachability statements:
one `add_stock` or one `remove_stock` call with its arguments. -/
inductive Op where
  | add (symbol : String) (shares price : Option ℚ) (dateOk : Bool)
      (dateStr : String)
  | remove (symbol : String) (shares : Option ℚ)
deriving DecidableEq, Repr

/-- Apply one command to a portfolio, discarding the printed outcome. -/
def applyOp (p : Portfolio) : Op → Portfolio
  | .add symbol shares price dateOk dateStr =>
    (add_stock p symbol shares price dateOk dateStr).1
  | .remove symbol shares => (remove_stock p symbol shares).1

/-- Run a command sequence from the empty portfolio a fresh session starts
with. -/
def run (ops : List Op) : Portfolio :=
  ops.foldl applyOp []

/-- The command is not a buy whose shares argument parsed to a
non-positive number. -/
def Op.posBuy : Op → Bool
  | .add _ (some sh) _ _ _ => decide (0 < sh)
  | _ => true

/-- The claimed ledger invariant: every position present in the portfolio
has strictly positive shares. -/
def sharesPositive (p : Portfolio) : Prop :=
  ∀ e ∈ p, 0 < e.2.shares

instance (p : Portfolio) : Decidable (sharesPositive p) :=
  List.decidableBAll _ p

/-! Basic lemmas about the dict operations. -/

theorem find?_setPos_self (p : Portfolio) (s : String) (v : Position) :
    find? (setPos p s v) s = some v := by
  induction p with
  | nil => simp [setPos, find?]
  | cons head rest ih =>
    obtain ⟨k, w⟩ := head
    by_cases h : k = s
    · simp [setPos, find?, h]
    · simp [setPos, find?, h, ih]

theorem find?_erase_self (p : Portfolio) (s : String) :
    find? (erase p s) s = none := by
  induction p with
  | nil => simp [erase, find?]
  | cons head rest ih =>
    obtain ⟨k, w⟩ := head
    by_cases h : k = s
    · simp [erase, h, ih]
    · simp [erase, find?, h, ih]

theorem find?_mem (p : Portfolio) (s : String) (v : Position)
    (h : find? p s = some v) : (s, v) ∈ p := by
  induction p with
  | nil => simp [find?] at h
  | cons head rest ih =>
    obtain ⟨k, w⟩ := head
    by_cases hk : k = s
    · simp [find?, hk] at h
      subst hk h
      exact List.mem_cons_self _ _
    · simp [find?, hk] at h
      exact List.mem_cons_of_mem _ (ih h)

theorem mem_setPos (p : Portfolio) (s : String) (v : Position)
    (e : String × Position) (h : e ∈ setPos p s v) : e = (s, v) ∨ e ∈ p := by
  induction p with
  | nil =>
    simp [setPos] at h
    exact Or.inl h
  | cons head rest ih =>
    obtain ⟨k, w⟩ := head
    by_cases hk : k = s
    · simp [setPos, hk] at h
      rcases h with h | h
      · exact Or.inl h
      · exact Or.inr (List.mem_cons_of_mem _ h)
    · simp [setPos, hk] at h
      rcases h with h | h
      · exact Or.inr (by simp [h])
      · rcases ih h with h' | h'
        · exact Or.inl h'
        · exact Or.inr (List.mem_cons_of_mem _ h')

theorem mem_erase (p : Portfolio) (s : String) (e : String × Position)
    (h : e ∈ erase p s) : e ∈ p := by
  induction p with
  | nil => simp [erase] at h
  | cons head rest ih =>
    obtain ⟨k, w⟩ := head
    by_cases hk : k = s
    · simp [erase, hk] at h
      exact List.mem_cons_of_mem _ (ih h)
    · simp [erase, hk] at h
      rcases h with h | h
      · simp [h]
      · exact List.mem_cons_of_mem _ (ih h)

/-! Preservation of the positive-shares invariant. -/

theorem sharesPositive_applyOp (p : Portfolio) (op : Op)
    (hp : sharesPositive p) (hop : op.posBuy = true) :
    sharesPositive (applyOp p op) := by
  cases op with
  | add symbol shares price dateOk dateStr =>
    cases shares with
    | none => simpa [applyOp, add_stock] using hp
    | some sh =>
      cases price with
      | none => simpa [applyOp, add_stock] using hp
      | some pr =>
        cases dateOk with
        | false => simpa [applyOp, add_stock] using hp
        | true =>
          have hsh : 0 < sh := by simpa [Op.posBuy] using hop
          rcases hfind : find? p (pyUpper symbol) with _ | pos
          · intro e he
            simp only [applyOp, add_stock, hfind] at he
            rcases mem_setPos p (pyUpper symbol) _ e he with rfl | hmem
            · exact hsh
            · exact hp e hmem
          · have hpos : 0 < pos.shares := hp _ (find?_mem _ _ _ hfind)
            have htot : 0 < pos.shares + sh := add_pos hpos hsh
            have hne : ¬ pos.shares + sh = 0 := ne_of_gt htot
            intro e he
            simp only [applyOp, add_stock, hfind, if_neg hne] at he
            rcases mem_setPos p (pyUpper symbol) _ e he with rfl | hmem
            · exact htot
            · exact hp e hmem
  | remove symbol shares =>
    rcases hfind : find? p (pyUpper symbol) with _ | pos
    · simpa [applyOp, remove_stock, hfind] using hp
    · cases shares with
      | none =>
        intro e he
        simp only [applyOp, remove_stock, hfind] at he
        exact hp e (mem_erase _ _ _ he)
      | some sh =>
        by_cases hle : pos.shares ≤ sh
        · intro e he
          simp only [applyOp, remove_stock, hfind, if_pos hle] at he
          exact hp e (mem_erase _ _ _ he)
        · intro e he
          simp only [applyOp, remove_stock, hfind, if_neg hle] at he
          rcases mem_setPos p (pyUpper symbol) _ e he with rfl | hmem
          · exact sub_pos.mpr (lt_of_not_le hle)
          · exact hp e hmem

theorem sharesPositive_foldl (ops : List Op) :
    ∀ p, sharesPositive p → (∀ op ∈ ops, op.posBuy = true) →
      sharesPositive (List.foldl applyOp p ops) := by
  induction ops with
  | nil => intro p hp _; simpa using hp
  | cons op rest ih =>
    intro p hp hops
    simp only [List.foldl_cons]
    exact ih _ (sharesPositive_applyOp p op hp (hops op (by simp)))
      (fun o ho => hops o (by simp [ho]))

/-! Characterization of the report loop. -/

theorem summaryLoop_totals (api : String → Option ℚ) (p : Portfolio) :
    ∀ rows ti tcv, summaryLoop api p = some (rows, ti, tcv) →
      ti = specInvestedSum api p ∧ tcv = specCurrentValueSum api p := by
  induction p with
  | nil =>
    intro rows ti tcv h
    simp only [summaryLoop, Option.some.injEq, Prod.mk.injEq] at h
    simp [specInvestedSum, specCurrentValueSum, h.2.1.symm, h.2.2.symm]
  | cons head rest ih =>
    obtain ⟨symbol, data⟩ := head
    intro rows ti tcv h
    rcases happi : api symbol with _ | price
    · simp only [summaryLoop, happi] at h
      have := ih rows ti tcv h
      simpa [specInvestedSum, specCurrentValueSum, happi] using this
    · by_cases hinv : data.shares * data.purchase_price = 0
      · simp [summaryLoop, happi, hinv] at h
      · rcases hrec : summaryLoop api rest with _ | ⟨⟨rows', ti', tcv'⟩⟩
        · simp [summaryLoop, happi, hinv, hrec] at h
        · simp only [summaryLoop, happi, hrec] at h
          rw [if_neg hinv] at h
          simp only [Option.some.injEq, Prod.mk.injEq] at h
          obtain ⟨hti', htcv'⟩ := ih rows' ti' tcv' hrec
          refine ⟨?_, ?_⟩
          · rw [← h.2.1, hti']
            simp [specInvestedSum, happi]
          · rw [← h.2.2, htcv']
            simp [specCurrentValueSum, happi]

theorem summaryLoop_fault (api : String → Option ℚ) (p : Portfolio)
    (symbol : String) (data : Position) (hmem : (symbol, data) ∈ p)
    (hq : (api symbol).isSome = true)
    (hzero : data.shares * data.purchase_price = 0) :
    summaryLoop api p = none := by
  induction p with
  | nil => simp at hmem
  | cons head rest ih =>
    obtain ⟨k, v⟩ := head
    rcases List.mem_cons.mp hmem with heq | hmem'
    · injection heq with h1 h2
      subst h1
      subst h2
      rcases hq' : api symbol with _ | price
      · rw [hq'] at hq
        simp at hq
      · simp [summaryLoop, hq', hzero]
    · rcases hk : api k with _ | price
      · simp only [summaryLoop, hk]
        exact ih hmem'
      · by_cases hv : v.shares * v.purchase_price = 0
        · simp [summaryLoop, hk, hv]
        · simp [summaryLoop, hk, hv, ih hmem']

/-! The claims. -/

/-- Claim C1: merging a first buy of `s` shares at price `p` creates a
position with `shares = s` and average cost `p`; merging a subsequent buy
`(s2, p2)` into a position holding `(s1, p1)` yields
`shares = s1 + s2` and average cost `(s1*p1 + s2*p2)/(s1+s2)` (exact over
the rationals, hence within floating-point tolerance). -/
theorem c1_weighted_average_merge (p : Portfolio) (sym d1 d2 : String)
    (s1 p1 s2 p2 : ℚ) (hfresh : find? p (pyUpper sym) = none)
    (hnz : s1 + s2 ≠ 0) :
    find? (add_stock p sym (some s1) (some p1) true d1).1 (pyUpper sym)
      = some ⟨s1, p1, d1⟩ ∧
    find? (add_stock (add_stock p sym (some s1) (some p1) true d1).1 sym
        (some s2) (some p2) true d2).1 (pyUpper sym)
      = some ⟨s1 + s2, (s1 * p1 + s2 * p2) / (s1 + s2), d1⟩ := by
  have h1 : (add_stock p sym (some s1) (some p1) true d1).1
      = setPos p (pyUpper sym) ⟨s1, p1, d1⟩ := by
    simp [add_stock, hfresh]
  have hfind1 : find? (add_stock p sym (some s1) (some p1) true d1).1
      (pyUpper sym) = some ⟨s1, p1, d1⟩ := by
    rw [h1]
    exact find?_setPos_self _ _ _
  refine ⟨hfind1, ?_⟩
  obtain ⟨p2', hp2'⟩ : ∃ x, (add_stock p sym (some s1) (some p1) true d1).1 = x :=
    ⟨_, rfl⟩
  rw [hp2'] at hfind1 ⊢
  have h2 : (add_stock p2' sym (some s2) (some p2) true d2).1
      = setPos p2' (pyUpper sym)
          ⟨s1 + s2, (s1 * p1 + s2 * p2) / (s1 + s2), d1⟩ := by
    simp only [add_stock, hfind1]
    rw [if_neg hnz]
  rw [h2]
  exact find?_setPos_self _ _ _

/-- Witness for C1: buying 10 at 100 and then 10 at 200 on a fresh symbol
gives 20 shares at the weighted average (10*100 + 10*200)/20. -/
theorem c1_witness :
    find? (add_stock [] "AAPL" (some 10) (some 100) true "2024-01-01").1
        (pyUpper "AAPL") = some ⟨10, 100, "2024-01-01"⟩ ∧
    find? (add_stock (add_stock [] "AAPL" (some 10) (some 100) true
        "2024-01-01").1 "AAPL" (some 10) (some 200) true "2024-02-01").1
        (pyUpper "AAPL")
      = some ⟨10 + 10, (10 * 100 + 10 * 200) / (10 + 10), "2024-01-01"⟩ :=
  c1_weighted_average_merge [] "AAPL" "2024-01-01" "2024-02-01" 10 100 10 200
    rfl (by norm_num)

/-- Claim C6: for a held symbol, `remove_stock` with the shares argument
omitted, or at least the position's current shares, removes the position
entirely. -/
theorem c6_full_disposal (p : Portfolio) (sym : String) (pos : Position)
    (shares : Option ℚ) (hfind : find? p (pyUpper sym) = some pos)
    (h : shares = none ∨ ∃ q, shares = some q ∧ pos.shares ≤ q) :
    remove_stock p sym shares = (erase p (pyUpper sym), .removedAll) ∧
    find? (remove_stock p sym shares).1 (pyUpper sym) = none := by
  have hrm : remove_stock p sym shares
      = (erase p (pyUpper sym), .removedAll) := by
    rcases h with rfl | ⟨q, rfl, hq⟩
    · simp [remove_stock, hfind]
    · simp [remove_stock, hfind, hq]
  exact ⟨hrm, by rw [hrm]; exact find?_erase_self _ _⟩

/-- Witness for C6: removing 20 shares from a 15-share position deletes
the position. -/
theorem c6_witness :
    remove_stock [("AAPL", ⟨15, 150, "2024-01-01"⟩)] "AAPL" (some 20)
      = (erase [("AAPL", ⟨15, 150, "2024-01-01"⟩)] (pyUpper "AAPL"),
          .removedAll) ∧
    find? (remove_stock [("AAPL", ⟨15, 150, "2024-01-01"⟩)] "AAPL"
        (some 20)).1 (pyUpper "AAPL") = none :=
  c6_full_disposal [("AAPL", ⟨15, 150, "2024-01-01"⟩)] "AAPL"
    ⟨15, 150, "2024-01-01"⟩ (some 20) rfl
    (Or.inr ⟨20, rfl, by norm_num⟩)

/-- Claim C7: for a held symbol, `remove_stock` with strictly fewer shares
than held keeps the average cost (and acquisition date) and reduces the
share count by exactly the disposed amount. -/
theorem c7_reduce_disposal (p : Portfolio) (sym : String) (pos : Position)
    (sh : ℚ) (hfind : find? p (pyUpper sym) = some pos)
    (hlt : sh < pos.shares) :
    (remove_stock p sym (some sh)).2 = .reduced ∧
    find? (remove_stock p sym (some sh)).1 (pyUpper sym)
      = some ⟨pos.shares - sh, pos.purchase_price, pos.purchase_date⟩ := by
  have hnle : ¬ pos.shares ≤ sh := not_le.mpr hlt
  constructor
  · simp [remove_stock, hfind, hnle]
  · have h1 : (remove_stock p sym (some sh)).1
        = setPos p (pyUpper sym)
            ⟨pos.shares - sh, pos.purchase_price, pos.purchase_date⟩ := by
      simp [remove_stock, hfind, hnle]
    rw [h1]
    exact find?_setPos_self _ _ _

/-- Witness for C7: removing 5 of 20 shares leaves 15 shares at the same
average cost. -/
theorem c7_witness :
    (remove_stock [("AAPL", ⟨20, 150, "2024-01-01"⟩)] "AAPL" (some 5)).2
      = .reduced ∧
    find? (remove_stock [("AAPL", ⟨20, 150, "2024-01-01"⟩)] "AAPL"
        (some 5)).1 (pyUpper "AAPL")
      = some ⟨(20 : ℚ) - 5, 150, "2024-01-01"⟩ :=
  c7_reduce_disposal [("AAPL", ⟨20, 150, "2024-01-01"⟩)] "AAPL"
    ⟨20, 150, "2024-01-01"⟩ 5 rfl (by norm_num)

/-- Claim C8: `remove_stock` on a symbol with no position reports it as
not in the portfolio and leaves the portfolio exactly unchanged. -/
theorem c8_not_held (p : Portfolio) (sym : String) (shares : Option ℚ)
    (h : find? p (pyUpper sym) = none) :
    remove_stock p sym shares = (p, .notHeld) := by
  simp [remove_stock, h]

/-- Witness for C8: removing a symbol from a portfolio that holds a
different symbol changes nothing. -/
theorem c8_witness :
    remove_stock [("AAPL", ⟨15, 150, "2024-01-01"⟩)] "MSFT" (some 3)
      = ([("AAPL", ⟨15, 150, "2024-01-01"⟩)], .notHeld) :=
  c8_not_held [("AAPL", ⟨15, 150, "2024-01-01"⟩)] "MSFT" (some 3) rfl

/-- Claim C10: building the valuation report never mutates the portfolio,
whatever the price source returns. -/
theorem c10_report_never_mutates (p : Portfolio) (api : String → Option ℚ) :
    (portfolio_summary p api).1 = p := by
  by_cases hp : p = []
  · simp [portfolio_summary, hp]
  · rcases hloop : summaryLoop api p with _ | ⟨⟨rows, ti, tcv⟩⟩ <;>
      simp [portfolio_summary, hp, hloop]

/-- Counterexample to claim C2 as stated: `add_stock` does not validate
positivity, so a buy of zero shares creates a position with
`shares = 0 ≤ 0`, a reachable state in which the claimed invariant
fails. -/
theorem c2_counterexample :
    ¬ sharesPositive
        (add_stock [] "AAPL" (some 0) (some 10) true "2024-01-01").1 := by
  intro h
  have hmem : ("AAPL", (⟨0, 10, "2024-01-01"⟩ : Position))
      ∈ (add_stock [] "AAPL" (some 0) (some 10) true "2024-01-01").1 := by
    have hlist : (add_stock [] "AAPL" (some 0) (some 10) true
        "2024-01-01").1 = [("AAPL", (⟨0, 10, "2024-01-01"⟩ : Position))] := rfl
    rw [hlist]
    simp
  have h0 := h _ hmem
  simp at h0

/-- Claim C2 (amended): after any sequence of `add_stock` and
`remove_stock` calls from the empty portfolio in which every buy's shares
argument parses to a strictly positive number, every position present in
the portfolio has strictly positive shares. (As stated the claim fails:
the code does not reject zero or negative buys, see the
counterexample.) -/
theorem c2_amended_invariant (ops : List Op)
    (h : ∀ op ∈ ops, op.posBuy = true) : sharesPositive (run ops) :=
  sharesPositive_foldl ops [] (by intro e he; simp at he) h

/-- Witness for the amended C2: a buy, a reduction and a second buy keep
all share counts positive. -/
theorem c2_witness :
    sharesPositive (run
      [Op.add "AAPL" (some 10) (some 100) true "2024-01-01",
       Op.remove "AAPL" (some 4),
       Op.add "msft" (some 2) (some 50) true "2024-03-01"]) :=
  c2_amended_invariant
    [Op.add "AAPL" (some 10) (some 100) true "2024-01-01",
     Op.remove "AAPL" (some 4),
     Op.add "msft" (some 2) (some 50) true "2024-03-01"]
    (by intro op hop
        simp only [List.mem_cons, List.not_mem_nil, or_false] at hop
        rcases hop with rfl | rfl | rfl <;> rfl)

/-- Counterexample to claim C3 as stated: a position with average cost 0
and a successful quote makes `(gain_loss / investment) * 100` divide by
zero: the code raises an uncaught `ZeroDivisionError` instead of
reporting a sentinel. -/
theorem c3_counterexample :
    (portfolio_summary [("AAPL", ⟨1, 0, "2024-01-01"⟩)]
        (fun _ => some 5)).2 = .zeroDivisionFault := by
  have hfault : summaryLoop (fun _ => some 5)
      [("AAPL", (⟨1, 0, "2024-01-01"⟩ : Position))] = none :=
    summaryLoop_fault _ _ "AAPL" ⟨1, 0, "2024-01-01"⟩ (by simp) rfl
      (by norm_num)
  simp [portfolio_summary, hfault]

/-- Claim C3 (amended): the per-row gain/loss percentage is not guarded:
whenever the portfolio holds a position whose invested amount is zero and
the price lookup for it succeeds, `portfolio_summary` raises a
division-by-zero fault and produces no report. -/
theorem c3_amended_division_fault (p : Portfolio)
    (api : String → Option ℚ) (symbol : String) (data : Position)
    (hmem : (symbol, data) ∈ p) (hq : (api symbol).isSome = true)
    (hzero : data.shares * data.purchase_price = 0) :
    (portfolio_summary p api).2 = .zeroDivisionFault := by
  have hne : p ≠ [] := by
    intro hnil
    rw [hnil] at hmem
    simp at hmem
  have hfault := summaryLoop_fault api p symbol data hmem hq hzero
  simp [portfolio_summary, hne, hfault]

/-- Witness for the amended C3: two shares at average cost 0 with a
successful quote of 3 fault the report. -/
theorem c3_witness :
    (portfolio_summary [("TSLA", ⟨2, 0, "2024-01-05"⟩)]
        (fun _ => some 3)).2 = .zeroDivisionFault :=
  c3_amended_division_fault _ _ "TSLA" ⟨2, 0, "2024-01-05"⟩ (by simp) rfl
    (by norm_num)

/-- Claim C4: when the report completes, its aggregate totals equal the
sums of invested and current value over exactly the positions whose price
lookup succeeded, and the total gain/loss percentage is 0 when the total
invested is 0 instead of a division fault. -/
theorem c4_aggregate_totals (p : Portfolio) (api : String → Option ℚ)
    (s : Summary) (h : (portfolio_summary p api).2 = .ok s) :
    s.total_investment = specInvestedSum api p ∧
    s.total_current_value = specCurrentValueSum api p ∧
    (s.total_investment = 0 → s.total_gain_loss_pct = 0) := by
  by_cases hp : p = []
  · rw [hp] at h
    simp [portfolio_summary] at h
  · rcases hloop : summaryLoop api p with _ | ⟨⟨rows, ti, tcv⟩⟩
    · simp [portfolio_summary, hp, hloop] at h
    · have h' : SummaryResult.ok (⟨rows, ti, tcv, tcv - ti,
          if ti ≠ 0 then (tcv - ti) / ti * 100 else 0⟩ : Summary)
          = SummaryResult.ok s := by
        rw [← h]
        simp [portfolio_summary, hp, hloop]
      obtain ⟨hti, htcv⟩ := summaryLoop_totals api p rows ti tcv hloop
      injection h' with hs
      subst hs
      refine ⟨hti, htcv, ?_⟩
      intro h0
      have h0' : ti = 0 := h0
      show (if ti ≠ 0 then (tcv - ti) / ti * 100 else 0) = 0
      simp [h0']

/-- Witness for C4: one quoted position and one position whose quote
fails; the totals count only the quoted one. -/
theorem c4_witness :
    (⟨[⟨"AAPL", 10, 100, 120, 1000, 1200, 200, 20⟩],
        1000, 1200, 200, 20⟩ : Summary).total_investment
      = specInvestedSum (fun s => if s = "AAPL" then some 120 else none)
          [("AAPL", ⟨10, 100, "2024-01-01"⟩),
           ("MSFT", ⟨5, 50, "2024-01-01"⟩)] ∧
    (⟨[⟨"AAPL", 10, 100, 120, 1000, 1200, 200, 20⟩],
        1000, 1200, 200, 20⟩ : Summary).total_current_value
      = specCurrentValueSum (fun s => if s = "AAPL" then some 120 else none)
          [("AAPL", ⟨10, 100, "2024-01-01"⟩),
           ("MSFT", ⟨5, 50, "2024-01-01"⟩)] ∧
    ((⟨[⟨"AAPL", 10, 100, 120, 1000, 1200, 200, 20⟩],
        1000, 1200, 200, 20⟩ : Summary).total_investment = 0 →
      (⟨[⟨"AAPL", 10, 100, 120, 1000, 1200, 200, 20⟩],
        1000, 1200, 200, 20⟩ : Summary).total_gain_loss_pct = 0) :=
  c4_aggregate_totals
    [("AAPL", ⟨10, 100, "2024-01-01"⟩), ("MSFT", ⟨5, 50, "2024-01-01"⟩)]
    (fun s => if s = "AAPL" then some 120 else none)
    ⟨[⟨"AAPL", 10, 100, 120, 1000, 1200, 200, 20⟩], 1000, 1200, 200, 20⟩
    (by simp [portfolio_summary, summaryLoop]
        norm_num)

/-- Counterexample to claim C5 as stated: a buy of zero shares and a buy
with an empty symbol are both accepted and mutate the portfolio; neither
is reported as an input error. -/
theorem c5_counterexample :
    add_stock [] "AAPL" (some 0) (some 10) true "2024-01-01"
      = ([("AAPL", ⟨0, 10, "2024-01-01"⟩)], .added) ∧
    add_stock [] "" (some 5) (some 10) true "2024-01-01"
      = ([("", ⟨5, 10, "2024-01-01"⟩)], .added) :=
  ⟨rfl, rfl⟩

/-- Claim C5 (amended): `add_stock` rejects non-numeric shares,
non-numeric price, and malformed dates before any state mutation: the
input error is reported and the portfolio is exactly unchanged. (As
stated the claim fails: zero or negative shares and empty symbols are not
rejected, see the counterexample.) -/
theorem c5_amended_validation (p : Portfolio) (sym : String)
    (shares price : Option ℚ) (dateOk : Bool) (dateStr : String)
    (h : shares = none ∨ price = none ∨ dateOk = false) :
    add_stock p sym shares price dateOk dateStr = (p, .invalidInput) := by
  rcases h with rfl | rfl | rfl
  · cases price <;> cases dateOk <;> rfl
  · cases shares <;> cases dateOk <;> rfl
  · cases shares <;> cases price <;> rfl

/-- Witness for the amended C5: a malformed date is rejected and the
portfolio is unchanged. -/
theorem c5_witness :
    add_stock [("AAPL", ⟨15, 150, "2024-01-01"⟩)] "AAPL" (some 5)
        (some 10) false "not-a-date"
      = ([("AAPL", ⟨15, 150, "2024-01-01"⟩)], .invalidInput) :=
  c5_amended_validation [("AAPL", ⟨15, 150, "2024-01-01"⟩)] "AAPL"
    (some 5) (some 10) false "not-a-date" (Or.inr (Or.inr rfl))

/-- Claim C9: the stored purchase date is set only when the position is
created and is never altered by a later merge; in particular buying
10 AAPL at 100 on 2024-01-01 and then 10 at 200 on 2024-02-01 yields the
position with 20 shares, average cost 150 and the original date
2024-01-01. -/
theorem c9_purchase_date_frame (p : Portfolio) (sym d : String)
    (sh pr : ℚ) (pos : Position)
    (hfind : find? p (pyUpper sym) = some pos)
    (hnz : pos.shares + sh ≠ 0) :
    (∃ pos', find? (add_stock p sym (some sh) (some pr) true d).1
        (pyUpper sym) = some pos' ∧
      pos'.purchase_date = pos.purchase_date) ∧
    find? (add_stock (add_stock [] "AAPL" (some 10) (some 100) true
        "2024-01-01").1 "AAPL" (some 10) (some 200) true "2024-02-01").1
        (pyUpper "AAPL")
      = some ⟨20, 150, "2024-01-01"⟩ := by
  constructor
  · refine ⟨⟨pos.shares + sh,
      (pos.shares * pos.purchase_price + sh * pr) / (pos.shares + sh),
      pos.purchase_date⟩, ?_, rfl⟩
    have h1 : (add_stock p sym (some sh) (some pr) true d).1
        = setPos p (pyUpper sym) ⟨pos.shares + sh,
            (pos.shares * pos.purchase_price + sh * pr) / (pos.shares + sh),
            pos.purchase_date⟩ := by
      simp only [add_stock, hfind]
      rw [if_neg hnz]
    rw [h1]
    exact find?_setPos_self _ _ _
  · have hstep : (add_stock [] "AAPL" (some 10) (some 100) true
        "2024-01-01").1 = [("AAPL", (⟨10, 100, "2024-01-01"⟩ : Position))] :=
      rfl
    rw [hstep]
    have hfind2 : find? [("AAPL", (⟨10, 100, "2024-01-01"⟩ : Position))]
        (pyUpper "AAPL") = some ⟨10, 100, "2024-01-01"⟩ := rfl
    have h2 : (add_stock [("AAPL", (⟨10, 100, "2024-01-01"⟩ : Position))]
        "AAPL" (some 10) (some 200) true "2024-02-01").1
        = setPos [("AAPL", ⟨10, 100, "2024-01-01"⟩)] (pyUpper "AAPL")
            ⟨10 + 10, (10 * 100 + 10 * 200) / (10 + 10), "2024-01-01"⟩ := by
      simp only [add_stock, hfind2]
      rw [if_neg (by norm_num : (10 : ℚ) + 10 ≠ 0)]
    rw [h2, find?_setPos_self]
    norm_num

/-- Witness for C9: merging a second buy into an existing AAPL position
keeps the original purchase date. -/
theorem c9_witness :
    (∃ pos', find? (add_stock [("AAPL", ⟨10, 100, "2024-01-01"⟩)] "AAPL"
        (some 10) (some 200) true "2024-02-01").1 (pyUpper "AAPL")
        = some pos' ∧
      pos'.purchase_date
        = (⟨10, 100, "2024-01-01"⟩ : Position).purchase_date) ∧
    find? (add_stock (add_stock [] "AAPL" (some 10) (some 100) true
        "2024-01-01").1 "AAPL" (some 10) (some 200) true "2024-02-01").1
        (pyUpper "AAPL")
      = some ⟨20, 150, "2024-01-01"⟩ :=
  c9_purchase_date_frame [("AAPL", ⟨10, 100, "2024-01-01"⟩)] "AAPL"
    "2024-02-01" 10 200 ⟨10, 100, "2024-01-01"⟩ rfl (by norm_num)

end StockTracker
